import Mathlib

/-!
Verification of the koishi permissions plugin (`src/index.ts`).

The plugin is CRUD glue over host services.  We embed it as a pure state
machine: the host datastore (user records, channel records, and the
plugin-owned `permissions` table), the external permission registry
(`ctx.permissions.define` registrations together with the plugin's
`disposables` map), and the known-names list (`ctx.permissions.list()`)
become fields of a single state record; every async method becomes a pure
function on that state.  JavaScript `Set` insertion-order semantics are kept
via duplicate-free lists built with a fold.
-/

namespace KoishiPermissions

/-- Observable effects against the external permission registry, in order:
disposing a previous registration and publishing a definition. -/
inductive Event where
  | dispose (name : String)
  | define (name : String) (permissions : List String)
deriving DecidableEq, Repr

/-- The option flags of one `perm` command invocation. -/
structure Options where
  user : Option String
  currentUser : Bool
  channel : Option String
  currentChannel : Bool
  group : Option String
  delete : Bool
deriving DecidableEq, Repr

/-- The session data the action reads: `session.uid` and `session.cid`. -/
structure Session where
  uid : String
  cid : String
deriving DecidableEq, Repr

/-- The world state the plugin manipulates: host user/channel records keyed by
(platform, id), the plugin-owned `permissions` table keyed by group name, the
registry registrations currently held in `disposables`, the registry's other
known permission names, and the log of registry effects. -/
structure St where
  users : List ((String × String) × List String)
  channels : List ((String × String) × List String)
  groups : List (String × List String)
  registrations : List (String × List String)
  baseNames : List String
  log : List Event
deriving DecidableEq, Repr

/-- Association-list lookup (the datastore's get-by-key). -/
def alookup {α β : Type} [BEq α] (l : List (α × β)) (k : α) : Option β :=
  (l.find? (fun p => p.fst == k)).map (fun p => p.snd)

/-- Association-list upsert (the datastore's create-or-set by key). -/
def aset {α β : Type} [BEq α] (l : List (α × β)) (k : α) (v : β) :
    List (α × β) :=
  (l.filter (fun p => !(p.fst == k))) ++ [(k, v)]

/-- Association-list removal (the datastore's `remove` by key). -/
def aremove {α β : Type} [BEq α] (l : List (α × β)) (k : α) : List (α × β) :=
  l.filter (fun p => !(p.fst == k))

/-- `parsePlatform`: split `platform:id` at the first colon.  Mirrors the
JavaScript `indexOf`/`slice` behaviour, including the no-colon case where
`indexOf` returns -1 and `slice(0, -1)` drops the last character. -/
def parsePlatform (target : String) : String × String :=
  match target.toList.findIdx? (fun c => c = ':') with
  | some i => (String.mk (target.toList.take i), String.mk (target.toList.drop (i + 1)))
  | none => (String.mk target.toList.dropLast, target)

/-- JavaScript `String.prototype.startsWith`: prefix test on the character
sequence. -/
def strStartsWith (s p : String) : Bool :=
  p.data.isPrefixOf s.data

/-- JavaScript `slice(n)` on a string: drop the first `n` characters. -/
def strDrop (s : String) (n : Nat) : String :=
  String.mk (s.data.drop n)

/-- `Set.prototype.add`: append a string unless already present, keeping
insertion order. -/
def setAdd (s : List String) (x : String) : List String :=
  if x ∈ s then s else s ++ [x]

/-- `Set.prototype.delete`: drop every occurrence of a string. -/
def setDelete (s : List String) (x : String) : List String :=
  s.filter (fun y => y ≠ x)

/-- `new Set(l)`: deduplicate keeping first occurrences. -/
def jsSet (l : List String) : List String :=
  l.foldl setAdd []

/-- The permission pipeline shared by all three branches of
`modifyPermission`: build a `Set` from the stored list, add the `set` names,
delete the `unset` names, and spread back to a list. -/
def applyPerms (prev set unset : List String) : List String :=
  unset.foldl setDelete (set.foldl setAdd (jsSet prev))

/-- `ctx.permissions.list()`: every known permission name.  Names published by
this plugin's live registrations are included alongside the rest. -/
def permissionsList (st : St) : List String :=
  st.baseNames ++ st.registrations.map (fun p => p.fst)

/-- `#updateGroup(name, permissions)`: when the permission list is available,
dispose any previous registration for the name and publish a fresh definition,
recording it in `disposables`. -/
def updateGroup (st : St) (name : String) (perms? : Option (List String)) : St :=
  let fetched := match perms? with
    | some p => some p
    | none => alookup st.groups name
  match fetched with
  | none => st
  | some permissions =>
    let hadPrior := (alookup st.registrations name).isSome
    { st with
      registrations := aset st.registrations name permissions
      log := st.log ++ (if hadPrior then [Event.dispose name] else [])
        ++ [Event.define name permissions] }

/-- `deleteGroup(name)`: remove the group row, invoke the stored disposer if
any, and delete the `disposables` entry. -/
def deleteGroup (st : St) (name : String) : St :=
  let st1 := { st with groups := aremove st.groups name }
  let hadPrior := (alookup st1.registrations name).isSome
  { st1 with
    registrations := aremove st1.registrations name
    log := st1.log ++ (if hadPrior then [Event.dispose name] else []) }

/-- `listPermission(target)`: branch on sigil and return the backing record's
permission list, or none when the record is absent (or the target empty). -/
def listPermission (st : St) (target : String) : Option (List String) :=
  if target = "" then none
  else if strStartsWith target "@" then
    alookup st.users (parsePlatform (strDrop target 1))
  else if strStartsWith target "#" then
    alookup st.channels (parsePlatform (strDrop target 1))
  else
    alookup st.groups target

/-- `modifyPermission(target, set, unset)`: fetch or create the backing record
(a fresh record has the empty permission list), run the add/delete pipeline,
persist, and for group targets re-publish via `#updateGroup`. -/
def modifyPermission (st : St) (target : String) (set unset : List String) :
    Bool × St :=
  if target = "" then (false, st)
  else if strStartsWith target "@" then
    let key := parsePlatform (strDrop target 1)
    let prev := (alookup st.users key).getD []
    let permissions := applyPerms prev set unset
    (true, { st with users := aset st.users key permissions })
  else if strStartsWith target "#" then
    let key := parsePlatform (strDrop target 1)
    let prev := (alookup st.channels key).getD []
    let permissions := applyPerms prev set unset
    (true, { st with channels := aset st.channels key permissions })
  else
    let prev := (alookup st.groups target).getD []
    let permissions := applyPerms prev set unset
    let st1 := { st with groups := aset st.groups target permissions }
    (true, updateGroup st1 target (some permissions))

/-- JavaScript truthiness of an optional string flag value. -/
def truthy : Option String → Bool
  | none => false
  | some s => !(s == "")

/-- The target resolver of the `perm` action: the chained conditional that
maps the flags to one sigil-tagged target key, or none. -/
def resolveTarget (opts : Options) (sess : Session) : Option String :=
  if truthy opts.user then some ("@" ++ opts.user.getD "")
  else if opts.currentUser then some ("#" ++ sess.uid)
  else if truthy opts.channel then some ("#" ++ opts.channel.getD "")
  else if opts.currentChannel then some ("#" ++ sess.cid)
  else if truthy opts.group then some ("group." ++ opts.group.getD "")
  else none

/-- The names without a `~` prefix: the add list. -/
def permSet (perms : List String) : List String :=
  perms.filter (fun x => !(strStartsWith x "~"))

/-- The names with a `~` prefix, stripped: the remove list. -/
def permUnset (perms : List String) : List String :=
  (perms.filter (fun x => strStartsWith x "~")).map (fun x => strDrop x 1)

/-- The replies the `perm` action can produce (each a localized message, the
help invocation, or the permissions listing). -/
inductive Response where
  | deleted
  | help
  | unknownPermission
  | success
  | failure
  | permissions (target : String) (permissions : Option (List String))
deriving DecidableEq, Repr

/-- The `perm` command action: the group-delete branch, target resolution,
the view branch, the unknown-name guard, and the mutation branch. -/
def permAction (st : St) (opts : Options) (sess : Session)
    (perms : List String) : Response × St :=
  if opts.delete && truthy opts.group && perms.isEmpty then
    (Response.deleted, deleteGroup st ("group." ++ opts.group.getD ""))
  else
    match resolveTarget opts sess with
    | none => (Response.help, st)
    | some target =>
      if perms.isEmpty then
        (Response.permissions target (listPermission st target), st)
      else
        let set := permSet perms
        let unset := permUnset perms
        if set.any (fun x => !((permissionsList st).contains x)) then
          (Response.unknownPermission, st)
        else
          let r := modifyPermission st target set unset
          (if r.fst then Response.success else Response.failure, r.snd)

/-- The `perm.list` command action: all known permission names joined by
newlines. -/
def permListAction (st : St) : String :=
  String.intercalate "\n" (permissionsList st)

/-! ### Set-pipeline lemmas -/

theorem mem_setAdd (s : List String) (a x : String) :
    x ∈ setAdd s a ↔ x ∈ s ∨ x = a := by
  unfold setAdd
  by_cases h : a ∈ s
  · simp only [if_pos h]
    constructor
    · exact Or.inl
    · rintro (hx | rfl)
      · exact hx
      · exact h
  · simp [if_neg h]

theorem mem_foldl_setAdd (l : List String) (s : List String) (x : String) :
    x ∈ l.foldl setAdd s ↔ x ∈ s ∨ x ∈ l := by
  induction l generalizing s with
  | nil => simp
  | cons a t ih =>
    simp only [List.foldl_cons, ih, mem_setAdd, List.mem_cons]
    tauto

theorem nodup_setAdd (s : List String) (a : String) (h : s.Nodup) :
    (setAdd s a).Nodup := by
  unfold setAdd
  by_cases ha : a ∈ s
  · simpa [ha]
  · simp [ha, List.nodup_append, h]

theorem nodup_foldl_setAdd (l : List String) (s : List String) (h : s.Nodup) :
    (l.foldl setAdd s).Nodup := by
  induction l generalizing s with
  | nil => simpa
  | cons a t ih => exact ih (setAdd s a) (nodup_setAdd s a h)

theorem mem_jsSet (l : List String) (x : String) : x ∈ jsSet l ↔ x ∈ l := by
  simp [jsSet, mem_foldl_setAdd]

theorem nodup_jsSet (l : List String) : (jsSet l).Nodup :=
  nodup_foldl_setAdd l [] List.nodup_nil

theorem mem_setDelete (s : List String) (a x : String) :
    x ∈ setDelete s a ↔ x ∈ s ∧ x ≠ a := by
  simp [setDelete]

theorem mem_foldl_setDelete (l : List String) (s : List String) (x : String) :
    x ∈ l.foldl setDelete s ↔ x ∈ s ∧ x ∉ l := by
  induction l generalizing s with
  | nil => simp
  | cons a t ih =>
    simp only [List.foldl_cons, ih, mem_setDelete, List.mem_cons]
    tauto

theorem nodup_foldl_setDelete (l : List String) (s : List String)
    (h : s.Nodup) : (l.foldl setDelete s).Nodup := by
  induction l generalizing s with
  | nil => simpa
  | cons a t ih => exact ih (setDelete s a) (List.Nodup.filter _ h)

theorem mem_applyPerms (prev set unset : List String) (x : String) :
    x ∈ applyPerms prev set unset ↔ (x ∈ prev ∨ x ∈ set) ∧ x ∉ unset := by
  simp [applyPerms, mem_foldl_setDelete, mem_foldl_setAdd, mem_jsSet]

theorem nodup_applyPerms (prev set unset : List String) :
    (applyPerms prev set unset).Nodup :=
  nodup_foldl_setDelete _ _ (nodup_foldl_setAdd _ _ (nodup_jsSet prev))

theorem toFinset_applyPerms (prev set unset : List String) :
    (applyPerms prev set unset).toFinset =
      (prev.toFinset ∪ set.toFinset) \ unset.toFinset := by
  ext x
  simp only [List.mem_toFinset, mem_applyPerms, Finset.mem_sdiff,
    Finset.mem_union]

/-! ### Association-list lemmas -/

theorem alookup_aset_self {α β : Type} [BEq α] [LawfulBEq α]
    (l : List (α × β)) (k : α) (v : β) : alookup (aset l k v) k = some v := by
  unfold alookup aset
  have h1 : (l.filter (fun p => !(p.fst == k))).find? (fun p => p.fst == k)
      = none := by
    rw [List.find?_eq_none]
    intro p hp
    have := List.of_mem_filter hp
    simp only [Bool.not_eq_true'] at this
    simp [this]
  rw [List.find?_append, h1]
  simp [List.find?]

theorem alookup_aremove_self {α β : Type} [BEq α]
    (l : List (α × β)) (k : α) : alookup (aremove l k) k = none := by
  unfold alookup aremove
  have h1 : (l.filter (fun p => !(p.fst == k))).find? (fun p => p.fst == k)
      = none := by
    rw [List.find?_eq_none]
    intro p hp
    have := List.of_mem_filter hp
    simp only [Bool.not_eq_true'] at this
    simp [this]
  rw [h1]
  rfl

theorem aremove_eq_of_alookup_none {α β : Type} [BEq α]
    (l : List (α × β)) (k : α) (h : alookup l k = none) : aremove l k = l := by
  unfold alookup at h
  rw [Option.map_eq_none'] at h
  unfold aremove
  rw [List.filter_eq_self]
  intro p hp
  have := List.find?_eq_none.mp h p hp
  simp only [Bool.not_eq_true'] at this ⊢
  exact Bool.of_not_eq_true this

/-! ### Reading back the persisted list -/

theorem listPermission_modifyPermission (st : St) (target : String)
    (set unset : List String) (h : target ≠ "") :
    listPermission (modifyPermission st target set unset).snd target =
      some (applyPerms ((listPermission st target).getD []) set unset) := by
  unfold modifyPermission listPermission
  by_cases h1 : strStartsWith target "@"
  · simp [h, h1, alookup_aset_self]
  · by_cases h2 : strStartsWith target "#"
    · simp [h, h1, h2, alookup_aset_self]
    · simp [h, h1, h2, updateGroup, alookup_aset_self]

theorem toFinset_eq_of_perm (l1 l2 : List String) (h : l1.Perm l2) :
    l1.toFinset = l2.toFinset := by
  ext x
  simp [List.mem_toFinset, h.mem_iff]

theorem append_left_ne_empty (a b : String) (ha : a.data ≠ []) :
    a ++ b ≠ "" := by
  intro h
  have hd : (a ++ b).data = ("" : String).data := by rw [h]
  rw [String.data_append] at hd
  exact ha (List.append_eq_nil.mp hd).1

theorem resolveTarget_ne_empty (opts : Options) (sess : Session) (t : String)
    (h : resolveTarget opts sess = some t) : t ≠ "" := by
  unfold resolveTarget at h
  repeat' split at h
  all_goals cases h
  all_goals exact append_left_ne_empty _ _ (by decide)

theorem modifyPermission_fst (st : St) (target : String)
    (set unset : List String) (h : target ≠ "") :
    (modifyPermission st target set unset).fst = true := by
  unfold modifyPermission
  simp only [if_neg h]
  split
  · rfl
  · split <;> rfl

theorem permAction_fst_ne_failure (st : St) (opts : Options) (sess : Session)
    (perms : List String) : (permAction st opts sess perms).fst ≠
      Response.failure := by
  unfold permAction
  split
  · simp
  split
  · simp
  rename_i target hr
  split
  · simp
  dsimp only
  split
  · simp
  have hf := modifyPermission_fst st target (permSet perms)
    (permUnset perms) (resolveTarget_ne_empty opts sess target hr)
  simp [hf]

/-- Claim C1: for every target key (user, channel, or group) and every pair
of lists, `modifyPermission` leaves a backing record present (fetching or
creating it) and the permission list it persists equals, as a set,
(previous permissions ∪ set) \ unset — so a name occurring in both lists is
absent from the persisted result. -/
theorem modifyPermission_persists_union_sdiff (st : St) (target : String)
    (set unset : List String) (h : target ≠ "") :
    (listPermission (modifyPermission st target set unset).snd target).isSome
      = true ∧
    ((listPermission (modifyPermission st target set unset).snd
        target).getD []).toFinset =
      (((listPermission st target).getD []).toFinset ∪ set.toFinset)
        \ unset.toFinset := by
  rw [listPermission_modifyPermission st target set unset h]
  exact ⟨rfl, by simp [toFinset_applyPerms]⟩

theorem modifyPermission_persists_union_sdiff_witness :
    ("group.g" : String) ≠ "" ∧
    ((listPermission (modifyPermission ⟨[], [], [], [], [], []⟩ "group.g"
        ["a", "b"] ["b"]).snd "group.g").isSome = true ∧
      ((listPermission (modifyPermission ⟨[], [], [], [], [], []⟩ "group.g"
          ["a", "b"] ["b"]).snd "group.g").getD []).toFinset =
        (((listPermission ⟨[], [], [], [], [], []⟩ "group.g").getD
            []).toFinset ∪ (["a", "b"] : List String).toFinset)
          \ (["b"] : List String).toFinset) :=
  ⟨by decide, modifyPermission_persists_union_sdiff
    ⟨[], [], [], [], [], []⟩ "group.g" ["a", "b"] ["b"] (by decide)⟩

/-- Claim C4: after every `modifyPermission` call the persisted permission
list has no duplicate entries, and the resulting set is unchanged under any
reordering of the stored list, the add list, or the remove list. -/
theorem modifyPermission_nodup_order_invariant (st : St) (target : String)
    (set unset prev2 set2 unset2 : List String) (h : target ≠ "")
    (hp : prev2.Perm ((listPermission st target).getD []))
    (hs : set2.Perm set) (hu : unset2.Perm unset) :
    ((listPermission (modifyPermission st target set unset).snd
        target).getD []).Nodup ∧
    ((listPermission (modifyPermission st target set unset).snd
        target).getD []).toFinset =
      (applyPerms prev2 set2 unset2).toFinset := by
  rw [listPermission_modifyPermission st target set unset h]
  refine ⟨by simpa using nodup_applyPerms _ set unset, ?_⟩
  simp only [Option.getD_some]
  rw [toFinset_applyPerms, toFinset_applyPerms, toFinset_eq_of_perm _ _ hp,
    toFinset_eq_of_perm _ _ hs, toFinset_eq_of_perm _ _ hu]

theorem modifyPermission_nodup_order_invariant_witness :
    (("g" : String) ≠ "" ∧
      (["b", "a"] : List String).Perm
        ((listPermission ⟨[], [], [("g", ["a", "b"])], [], [], []⟩ "g").getD
          []) ∧
      (["c"] : List String).Perm ["c"] ∧
      (["a"] : List String).Perm ["a"]) ∧
    (((listPermission (modifyPermission
        ⟨[], [], [("g", ["a", "b"])], [], [], []⟩ "g" ["c"] ["a"]).snd
        "g").getD []).Nodup ∧
      ((listPermission (modifyPermission
          ⟨[], [], [("g", ["a", "b"])], [], [], []⟩ "g" ["c"] ["a"]).snd
          "g").getD []).toFinset =
        (applyPerms ["b", "a"] ["c"] ["a"]).toFinset) :=
  ⟨⟨by decide, by decide, by decide, by decide⟩,
    modifyPermission_nodup_order_invariant
      ⟨[], [], [("g", ["a", "b"])], [], [], []⟩ "g" ["c"] ["a"] ["b", "a"]
      ["c"] ["a"] (by decide) (by decide) (by decide) (by decide)⟩

/-- Claim C10: `modifyPermission` returns true for every non-empty target
(a target with neither `@` nor `#` sigil is treated as a group and still
succeeds), so the generic failure reply of the `perm` action is unreachable
for any invocation that resolves a target. -/
theorem modifyPermission_true_no_failure (st st2 : St) (target : String)
    (set unset : List String) (opts : Options) (sess : Session)
    (perms : List String) (h : target ≠ "") :
    (modifyPermission st target set unset).fst = true ∧
    (permAction st2 opts sess perms).fst ≠ Response.failure :=
  ⟨modifyPermission_fst st target set unset h,
    permAction_fst_ne_failure st2 opts sess perms⟩

theorem modifyPermission_true_no_failure_witness :
    ("grp" : String) ≠ "" ∧
    ((modifyPermission ⟨[], [], [], [], [], []⟩ "grp" ["a"] []).fst = true ∧
      (permAction ⟨[], [], [], [], [], []⟩
        ⟨none, false, none, false, none, false⟩ ⟨"p:u", "p:c"⟩ []).fst ≠
        Response.failure) :=
  ⟨by decide, modifyPermission_true_no_failure ⟨[], [], [], [], [], []⟩
    ⟨[], [], [], [], [], []⟩ "grp" ["a"] []
    ⟨none, false, none, false, none, false⟩ ⟨"p:u", "p:c"⟩ [] (by decide)⟩

/-- Claim C2: contradicted by the code.  The current-user flag is tagged with
the channel sigil `#` (the action builds `` `#${session.uid}` ``), not the
user sigil `@` the spec prescribes: on `session.uid = "mock:alice"` the
resolver yields `#mock:alice`, a key that the downstream branches treat as a
channel target. -/
theorem resolveTarget_currentUser_channel_sigil :
    resolveTarget ⟨none, true, none, false, none, false⟩
        ⟨"mock:alice", "mock:room"⟩ = some ("#" ++ "mock:alice") ∧
      ("#" ++ "mock:alice" : String) ≠ ("@" ++ "mock:alice" : String) ∧
      strStartsWith ("#" ++ "mock:alice") "@" = false ∧
      strStartsWith ("#" ++ "mock:alice") "#" = true := by
  decide

/-- Claim C3: when a name of the add list is unknown to the registry the
action returns the unknown-permission reply before any mutation: the state
comes back unchanged (no record created, no stored list or registration
touched). -/
theorem permAction_unknown_name_no_mutation (st : St) (opts : Options)
    (sess : Session) (perms : List String) (target x : String)
    (hne : perms ≠ []) (ht : resolveTarget opts sess = some target)
    (hx : x ∈ permSet perms) (hunk : x ∉ permissionsList st) :
    permAction st opts sess perms = (Response.unknownPermission, st) := by
  have hemp : perms.isEmpty = false := by
    cases perms with
    | nil => exact absurd rfl hne
    | cons a t => rfl
  have hany : ∃ y ∈ permSet perms, y ∉ permissionsList st := ⟨x, hx, hunk⟩
  unfold permAction
  rw [ht]
  simp [hemp, hany]

theorem permAction_unknown_name_no_mutation_witness :
    ((["nope"] : List String) ≠ [] ∧
      resolveTarget ⟨none, false, none, false, some "g", false⟩
        ⟨"p:u", "p:c"⟩ = some "group.g" ∧
      ("nope" : String) ∈ permSet ["nope"] ∧
      ("nope" : String) ∉ permissionsList ⟨[], [], [], [], [], []⟩) ∧
    permAction ⟨[], [], [], [], [], []⟩
        ⟨none, false, none, false, some "g", false⟩ ⟨"p:u", "p:c"⟩ ["nope"]
      = (Response.unknownPermission, ⟨[], [], [], [], [], []⟩) :=
  ⟨⟨by decide, by decide, by decide, by decide⟩,
    permAction_unknown_name_no_mutation ⟨[], [], [], [], [], []⟩
      ⟨none, false, none, false, some "g", false⟩ ⟨"p:u", "p:c"⟩ ["nope"]
      "group.g" "nope" (by decide) (by decide) (by decide) (by decide)⟩

/-- Claim C5: for every group target, `modifyPermission` persists the merged
set and then re-registers the group name with the external registry carrying
the updated set — unconditionally, also on the fetch-or-create first touch —
and whenever a prior registration existed it is disposed first: the effect
log gains the disposal immediately before the fresh definition, and only the
fresh definition otherwise. -/
theorem modifyPermission_group_reregisters (st : St) (target : String)
    (set unset : List String) (h : target ≠ "")
    (h1 : strStartsWith target "@" = false)
    (h2 : strStartsWith target "#" = false) :
    alookup (modifyPermission st target set unset).snd.registrations target
      = some (applyPerms ((alookup st.groups target).getD []) set unset) ∧
    (modifyPermission st target set unset).snd.log =
      st.log
        ++ (if (alookup st.registrations target).isSome then
          [Event.dispose target] else [])
        ++ [Event.define target
          (applyPerms ((alookup st.groups target).getD []) set unset)] := by
  unfold modifyPermission
  simp only [if_neg h, h1, h2, Bool.false_eq_true, if_false]
  unfold updateGroup
  dsimp only
  exact ⟨alookup_aset_self _ _ _, rfl⟩

theorem modifyPermission_group_reregisters_witness :
    (("group.g" : String) ≠ "" ∧
      strStartsWith "group.g" "@" = false ∧
      strStartsWith "group.g" "#" = false) ∧
    (alookup (modifyPermission ⟨[], [], [("group.g", ["a"])],
        [("group.g", ["a"])], [], []⟩ "group.g" ["b"] []).snd.registrations
        "group.g"
      = some (applyPerms ((alookup (⟨[], [], [("group.g", ["a"])],
          [("group.g", ["a"])], [], []⟩ : St).groups "group.g").getD [])
          ["b"] []) ∧
      (modifyPermission ⟨[], [], [("group.g", ["a"])], [("group.g", ["a"])],
          [], []⟩ "group.g" ["b"] []).snd.log =
        ([] : List Event)
          ++ (if (alookup (⟨[], [], [("group.g", ["a"])],
            [("group.g", ["a"])], [], []⟩ : St).registrations
            "group.g").isSome then [Event.dispose "group.g"] else [])
          ++ [Event.define "group.g" (applyPerms ((alookup (⟨[], [],
            [("group.g", ["a"])], [("group.g", ["a"])], [], []⟩ :
            St).groups "group.g").getD []) ["b"] [])]) :=
  ⟨⟨by decide, by decide, by decide⟩,
    modifyPermission_group_reregisters
      ⟨[], [], [("group.g", ["a"])], [("group.g", ["a"])], [], []⟩
      "group.g" ["b"] [] (by decide) (by decide) (by decide)⟩

/-- Claim C6: `deleteGroup` removes the group's datastore record and, when a
registration was previously published for the name, disposes it and removes
its entry from the in-memory registration map. -/
theorem deleteGroup_removes_and_unregisters (st : St) (name : String)
    (hp : (alookup st.registrations name).isSome = true) :
    alookup (deleteGroup st name).groups name = none ∧
    alookup (deleteGroup st name).registrations name = none ∧
    (deleteGroup st name).log = st.log ++ [Event.dispose name] := by
  unfold deleteGroup
  dsimp only
  rw [hp]
  exact ⟨alookup_aremove_self _ _, alookup_aremove_self _ _, by simp⟩

theorem deleteGroup_removes_and_unregisters_witness :
    (alookup (⟨[], [], [("g", ["a"])], [("g", ["a"])], [], []⟩ :
      St).registrations "g").isSome = true ∧
    (alookup (deleteGroup ⟨[], [], [("g", ["a"])], [("g", ["a"])], [], []⟩
        "g").groups "g" = none ∧
      alookup (deleteGroup ⟨[], [], [("g", ["a"])], [("g", ["a"])], [],
        []⟩ "g").registrations "g" = none ∧
      (deleteGroup ⟨[], [], [("g", ["a"])], [("g", ["a"])], [], []⟩
        "g").log = ([] : List Event) ++ [Event.dispose "g"]) :=
  ⟨by decide, deleteGroup_removes_and_unregisters
    ⟨[], [], [("g", ["a"])], [("g", ["a"])], [], []⟩ "g" (by decide)⟩

/-- Claim C7: contradicted by the code.  With the delete flag and a group
name that has no record (empty datastore), the action replies with the
deleted message — there is no unknown-group reply anywhere in the action, so
deleting a missing group is reported as a success. -/
theorem permAction_delete_missing_group_counterexample :
    permAction ⟨[], [], [], [], [], []⟩
        ⟨none, false, none, false, some "g", true⟩ ⟨"p:u", "p:c"⟩ []
      = (Response.deleted, ⟨[], [], [], [], [], []⟩) := by
  decide

/-- Claim C7 (amended): error outcomes the action does produce (unknown
permission name) are rendered as replies rather than thrown, but the
group-delete branch is unconditional: when the named group has no record the
removal is a no-op and the action still renders the deleted message; no
unknown-group reply exists. -/
theorem permAction_delete_missing_group (st : St) (g : String)
    (sess : Session) (hg : g ≠ "")
    (h : alookup st.groups ("group." ++ g) = none) :
    (permAction st ⟨none, false, none, false, some g, true⟩ sess []).fst
        = Response.deleted ∧
    (permAction st ⟨none, false, none, false, some g, true⟩ sess
        []).snd.groups = st.groups := by
  have htr : truthy (some g) = true := by
    simp [truthy, hg]
  unfold permAction
  rw [htr]
  rw [if_pos (show (true && true && ([] : List String).isEmpty) = true
    from rfl)]
  unfold deleteGroup
  simp only [Option.getD_some]
  rw [aremove_eq_of_alookup_none _ _ h]
  exact ⟨trivial, rfl⟩

theorem permAction_delete_missing_group_witness :
    (("g" : String) ≠ "" ∧
      alookup (⟨[], [], [("other", ["a"])], [], [], []⟩ : St).groups
        ("group." ++ "g") = none) ∧
    ((permAction ⟨[], [], [("other", ["a"])], [], [], []⟩
        ⟨none, false, none, false, some "g", true⟩ ⟨"p:u", "p:c"⟩ []).fst
        = Response.deleted ∧
      (permAction ⟨[], [], [("other", ["a"])], [], [], []⟩
          ⟨none, false, none, false, some "g", true⟩ ⟨"p:u", "p:c"⟩
          []).snd.groups =
        (⟨[], [], [("other", ["a"])], [], [], []⟩ : St).groups) :=
  ⟨⟨by decide, by decide⟩,
    permAction_delete_missing_group ⟨[], [], [("other", ["a"])], [], [], []⟩
      "g" ⟨"p:u", "p:c"⟩ (by decide) (by decide)⟩

/-- Claim C8: the argument list is partitioned so that exactly the
`~`-prefixed names, with the prefix stripped, form the remove list and all
other names form the add list; and `perm.list` replies with every registered
permission name joined one per line. -/
theorem permParsing_partition_and_list (perms : List String) (st : St)
    (x : String) :
    (x ∈ permSet perms ↔ x ∈ perms ∧ strStartsWith x "~" = false) ∧
    (x ∈ permUnset perms ↔ ∃ y, y ∈ perms ∧ strStartsWith y "~" = true ∧
      strDrop y 1 = x) ∧
    permListAction st = String.intercalate "\n" (permissionsList st) := by
  refine ⟨?_, ?_, rfl⟩
  · simp [permSet, List.mem_filter]
  · simp only [permUnset, List.mem_map, List.mem_filter]
    constructor
    · rintro ⟨y, ⟨h1, h2⟩, h3⟩
      exact ⟨y, h1, h2, h3⟩
    · rintro ⟨y, h1, h2, h3⟩
      exact ⟨y, ⟨h1, h2⟩, h3⟩

/-- Claim C9: with none of the user, current-user, channel, current-channel,
or group flags given the resolver yields no target and the action replies
with its help invocation on an unchanged state; and `listPermission` returns
none for a target whose backing record is absent. -/
theorem permAction_no_target_help (st : St) (sess : Session)
    (perms : List String) (d : Bool) (target : String)
    (hu : alookup st.users (parsePlatform (strDrop target 1)) = none)
    (hc : alookup st.channels (parsePlatform (strDrop target 1)) = none)
    (hg : alookup st.groups target = none) :
    resolveTarget ⟨none, false, none, false, none, d⟩ sess = none ∧
    permAction st ⟨none, false, none, false, none, d⟩ sess perms
        = (Response.help, st) ∧
    listPermission st target = none := by
  refine ⟨by unfold resolveTarget; simp [truthy], ?_, ?_⟩
  · unfold permAction resolveTarget
    simp [truthy]
  · unfold listPermission
    split
    · rfl
    split
    · exact hu
    split
    · exact hc
    · exact hg

theorem permAction_no_target_help_witness :
    (alookup (⟨[], [], [], [], ["perm.x"], []⟩ : St).users
        (parsePlatform (strDrop "@p:u" 1)) = none ∧
      alookup (⟨[], [], [], [], ["perm.x"], []⟩ : St).channels
        (parsePlatform (strDrop "@p:u" 1)) = none ∧
      alookup (⟨[], [], [], [], ["perm.x"], []⟩ : St).groups "@p:u" = none) ∧
    (resolveTarget ⟨none, false, none, false, none, true⟩ ⟨"p:u", "p:c"⟩
        = none ∧
      permAction ⟨[], [], [], [], ["perm.x"], []⟩
        ⟨none, false, none, false, none, true⟩ ⟨"p:u", "p:c"⟩ ["perm.x"]
        = (Response.help, ⟨[], [], [], [], ["perm.x"], []⟩) ∧
      listPermission ⟨[], [], [], [], ["perm.x"], []⟩ "@p:u" = none) :=
  ⟨⟨by decide, by decide, by decide⟩,
    permAction_no_target_help ⟨[], [], [], [], ["perm.x"], []⟩
      ⟨"p:u", "p:c"⟩ ["perm.x"] true "@p:u" (by decide) (by decide)
      (by decide)⟩

end KoishiPermissions
